import Mathlib

/-!
Verification of slang's compile-time constant-evaluation engine.

This file gives a shallow embedding of the evaluation-session machinery in
`source/ast/EvalContext.cpp` (frame stack, step fuel, diagnostics with
backtraces) and of the built-in container methods in
`source/compilation/builtins/ArrayMethods.cpp` (reductions, sort/rsort, queue
push/pop/insert), and proves theorems about their behavior.

Source locations, diagnostic codes and subroutine identities are abstracted to
atoms; diagnostic message formatting is out of scope, so a backtrace note
carries the frame (resp. the skipped-frame count and location) it would be
formatted from.
-/

namespace Slang

/-- A source location, abstracted to an atom. -/
abbrev SourceLocation := Nat

/-- The diagnostic codes issued by the embedded code paths
(`ConstEvalDiags.h` codes used in `EvalContext.cpp` / `ArrayMethods.cpp`). -/
inductive DiagCode where
  | constEvalExceededMaxCallDepth
  | constEvalExceededMaxSteps
  | constEvalEmptyQueue
  | constEvalDynamicArrayIndex
deriving DecidableEq, Repr

/-- A subroutine symbol: its name and declaration location
(the two pieces `EvalContext::pushFrame` reads from `SubroutineSymbol`). -/
structure SubroutineSymbol where
  name : Nat
  location : SourceLocation
deriving DecidableEq, Repr

/-- One activation record (`EvalContext::Frame`): the subroutine (absent for an
empty frame), the call site, and the lookup location stored by `pushFrame`.
Locals (`temporaries`) only feed message formatting and are omitted. -/
structure Frame where
  subroutine : Option Nat
  callLocation : SourceLocation
  lookupLocation : SourceLocation
deriving DecidableEq, Repr

/-- A backtrace note attached to a diagnostic: either a `NoteInCallTo` note
rendered from a frame, or a `NoteSkippingFrames` note carrying the number of
elided frames and its attachment location. -/
inductive Note where
  | inCallTo (frame : Frame)
  | skippingFrames (skipped : Nat) (loc : SourceLocation)
deriving DecidableEq, Repr

/-- A diagnostic record: code, location, and the ordered backtrace notes. -/
structure Diagnostic where
  code : DiagCode
  location : SourceLocation
  notes : List Note
deriving DecidableEq, Repr

/-- The numeric limits read from the compilation options
(`compilation.getOptions()`). -/
structure CompilationOptions where
  maxConstexprDepth : Nat
  maxConstexprSteps : Nat
  maxConstexprBacktrace : Nat
deriving DecidableEq, Repr

/-- The evaluation session state used by the embedded `EvalContext` members:
the frame stack (last element is the top, as `stack.back()` in the source),
the fuel counter and the pending diagnostics.  The lvalue stack and disable
target play no role in the embedded functions and are omitted. -/
structure EvalContext where
  options : CompilationOptions
  steps : Nat
  stack : List Frame
  diags : List Diagnostic
deriving DecidableEq, Repr

/-- `reportFrame` (file-static helper in `EvalContext.cpp`): frames without a
subroutine produce no note; otherwise a `NoteInCallTo` note rendered from the
frame is appended to the diagnostic. -/
def reportFrame (diag : Diagnostic) (frame : Frame) : Diagnostic :=
  match frame.subroutine with
  | none => diag
  | some _ => { diag with notes := diag.notes ++ [Note.inCallTo frame] }

/-- `EvalContext::reportStack`: attach the current frame stack to a diagnostic,
most recent frame first.  When the stack depth exceeds a nonzero limit, only
`limit / 2` leading and `limit / 2 + limit % 2` trailing frames of the display
order are reported, around one `NoteSkippingFrames` note counting
`stack.length - limit` frames. -/
def reportStack (limit : Nat) (stack : List Frame) (diag : Diagnostic) : Diagnostic :=
  if stack.length ≤ limit ∨ limit = 0 then
    stack.reverse.foldl reportFrame diag
  else
    let start := limit / 2
    let stop := start + limit % 2
    let reversed := stack.reverse
    let d1 := (reversed.take start).foldl reportFrame diag
    let noteLoc := (reversed.getD start ⟨none, 0, 0⟩).callLocation
    let d2 := { d1 with
                notes := d1.notes ++ [Note.skippingFrames (stack.length - limit) noteLoc] }
    (reversed.drop (reversed.length - stop)).foldl reportFrame d2

/-- `EvalContext::addDiag`: create a diagnostic and immediately capture the
current frame stack as its backtrace, appending it to the pending list. -/
def addDiag (ctx : EvalContext) (code : DiagCode) (location : SourceLocation) : EvalContext :=
  { ctx with
    diags := ctx.diags ++
      [reportStack ctx.options.maxConstexprBacktrace ctx.stack ⟨code, location, []⟩] }

/-- `EvalContext::pushFrame`: fails with a `ConstEvalExceededMaxCallDepth`
diagnostic (at the subroutine's declaration location) without pushing when the
stack already holds `maxConstexprDepth` frames; otherwise pushes one frame
recording the subroutine, call location and lookup location. -/
def pushFrame (ctx : EvalContext) (subroutine : SubroutineSymbol)
    (callLocation : SourceLocation) (lookupLocation : SourceLocation) :
    Bool × EvalContext :=
  if ctx.options.maxConstexprDepth ≤ ctx.stack.length then
    (false, addDiag ctx .constEvalExceededMaxCallDepth subroutine.location)
  else
    (true, { ctx with
             stack := ctx.stack ++ [⟨some subroutine.name, callLocation, lookupLocation⟩] })

/-- `EvalContext::step`: increment the fuel counter; succeed while it remains
below `maxConstexprSteps`, otherwise report `ConstEvalExceededMaxSteps` and
fail.  The counter (declared in the `EvalContext` header, outside the embedded
sources) is per the spec a monotonically increasing counter, modelled as `Nat`. -/
def step (ctx : EvalContext) (loc : SourceLocation) : Bool × EvalContext :=
  let ctx' := { ctx with steps := ctx.steps + 1 }
  if ctx'.steps < ctx.options.maxConstexprSteps then
    (true, ctx')
  else
    (false, addDiag ctx' .constEvalExceededMaxSteps loc)

/-- Loop body of `EvalContext::addDiags`: the `first` flag selects whether the
next diagnostic gets the current stack attached before being appended. -/
def addDiagsLoop (ctx : EvalContext) (first : Bool) : List Diagnostic → EvalContext
  | [] => ctx
  | d :: rest =>
    if first then
      addDiagsLoop
        { ctx with
          diags := ctx.diags ++
            [reportStack ctx.options.maxConstexprBacktrace ctx.stack d] }
        false rest
    else
      addDiagsLoop { ctx with diags := ctx.diags ++ [d] } false rest

/-- `EvalContext::addDiags`: merge a batch of already-recorded diagnostics,
attaching the current backtrace only to the first. -/
def addDiags (ctx : EvalContext) (additional : List Diagnostic) : EvalContext :=
  addDiagsLoop ctx true additional

/-- Modelled from the spec: the `Queue` variant of `ConstantValue` (`SVQueue`,
declared in the value-model header, which is not among the embedded sources):
an "ordered double-ended sequence of Value, optionally capped at a maximum
size — pushes beyond the cap evict from the opposite end".  The element type
is a parameter. -/
structure SVQueue (α : Type) where
  elems : List α
  maxBound : Option Nat
deriving DecidableEq, Repr

/-- Modelled from the spec: `push_back` on a queue; a push beyond the cap
evicts from the opposite end (the front). -/
def SVQueue.pushBack {α : Type} (q : SVQueue α) (v : α) : SVQueue α :=
  let l := q.elems ++ [v]
  match q.maxBound with
  | none => { q with elems := l }
  | some cap => { q with elems := if cap < l.length then l.drop (l.length - cap) else l }

/-- Modelled from the spec: `push_front` on a queue; a push beyond the cap
evicts from the opposite end (the back). -/
def SVQueue.pushFront {α : Type} (q : SVQueue α) (v : α) : SVQueue α :=
  let l := v :: q.elems
  match q.maxBound with
  | none => { q with elems := l }
  | some cap => { q with elems := if cap < l.length then l.take cap else l }

/-- `QueuePushMethod::eval` (`ArrayMethods.cpp`): push the evaluated value onto
the front or back of the resolved queue target.  Always returns no value and
emits no diagnostic. -/
def queuePushEval {α : Type} (front : Bool) (q : SVQueue α) (v : α) : SVQueue α :=
  if front then q.pushFront v else q.pushBack v

/-- `QueuePopMethod::eval` (`ArrayMethods.cpp`): popping an empty queue records
a `ConstEvalEmptyQueue` diagnostic and returns the element type's default
value, leaving the queue untouched; otherwise the front (resp. back) element
is removed and returned.  The result is (returned value, updated queue,
emitted diagnostic codes). -/
def queuePopEval {α : Type} (front : Bool) (q : SVQueue α) (defaultValue : α) :
    α × SVQueue α × List DiagCode :=
  if q.elems.isEmpty then
    (defaultValue, q, [DiagCode.constEvalEmptyQueue])
  else
    let result := if front then q.elems.headD defaultValue else q.elems.getLastD defaultValue
    (result, { q with elems := if front then q.elems.tail else q.elems.dropLast }, [])

/-- `SVInt::as<int32_t>` on an index value already modelled as a mathematical
integer: succeeds exactly when the value fits in a signed 32-bit integer. -/
def asInt32 (i : Int) : Option Int :=
  if -(2 ^ 31) ≤ i ∧ i ≤ 2 ^ 31 - 1 then some i else none

/-- `QueueInsertMethod::eval` (`ArrayMethods.cpp`): an index that does not
convert to `int32`, is negative, or exceeds the queue size records a
`ConstEvalDynamicArrayIndex` diagnostic and leaves the queue unmodified (the
call yields no value); otherwise the value is inserted at the index, shifting
later elements up.  The result is (updated queue, emitted diagnostic codes). -/
def queueInsertEval {α : Type} (q : SVQueue α) (ci : Int) (v : α) :
    SVQueue α × List DiagCode :=
  match asInt32 ci with
  | none => (q, [DiagCode.constEvalDynamicArrayIndex])
  | some index =>
    if index < 0 ∨ q.elems.length + 1 ≤ index then
      (q, [DiagCode.constEvalDynamicArrayIndex])
    else
      ({ q with elems := q.elems.take index.toNat ++ v :: q.elems.drop index.toNat }, [])

/-- A four-state integer restricted to known bits: bit width, signedness, and
the bit pattern as a natural number below `2 ^ width`. -/
structure SVInt where
  width : Nat
  signed : Bool
  val : Nat
deriving DecidableEq, Repr

/-- The five reduction operators registered by `registerArrayMethods`. -/
inductive ReduceOp where
  | or | and | xor | sum | product
deriving DecidableEq, Repr

/-- The fold operation each reduction applies to the accumulator
(`l |= r`, `l &= r`, `l ^= r`, `l += r`, `l *= r`), at the accumulator's
width. -/
def applyReduceOp : ReduceOp → SVInt → SVInt → SVInt
  | .or, l, r => { l with val := (l.val ||| r.val) % 2 ^ l.width }
  | .and, l, r => { l with val := (l.val &&& r.val) % 2 ^ l.width }
  | .xor, l, r => { l with val := (l.val ^^^ r.val) % 2 ^ l.width }
  | .sum, l, r => { l with val := (l.val + r.val) % 2 ^ l.width }
  | .product, l, r => { l with val := (l.val * r.val) % 2 ^ l.width }

/-- `ArrayReductionMethod::eval` (`ArrayMethods.cpp`), plain form (no `with`
clause): an empty container yields `SVInt(elemType->getBitWidth(), 0,
elemType->isSigned())`; otherwise the operator is folded across the elements
starting from the first. -/
def arrayReductionEval (op : ReduceOp) (elemWidth : Nat) (elemSigned : Bool)
    (arr : List SVInt) : SVInt :=
  match arr with
  | [] => ⟨elemWidth, elemSigned, 0⟩
  | x :: rest => rest.foldl (applyReduceOp op) x

/-- `ArraySortMethod::eval` (`ArrayMethods.cpp`), plain form on a queue target
with a totally ordered element type: `sort` (`reversed = false`) runs
`std::sort(begin, end)`, producing the ascending arrangement; `rsort`
(`reversed = true`) runs `std::sort(rbegin, rend)`, i.e. sorts the reversed
view ascending, so the queue read forward is descending. -/
def arraySortEval {α : Type} [LinearOrder α] (reversed : Bool) (q : SVQueue α) :
    SVQueue α :=
  if reversed then
    { q with elems := (q.elems.reverse.insertionSort (· ≤ ·)).reverse }
  else
    { q with elems := q.elems.insertionSort (· ≤ ·) }

/-! ## Helper lemmas -/

/-- The notes a list of frames contributes when folded through `reportFrame`:
one `inCallTo` note per frame that has a subroutine. -/
def frameNotes (frames : List Frame) : List Note :=
  frames.filterMap fun f => f.subroutine.map fun _ => Note.inCallTo f

theorem foldl_reportFrame (frames : List Frame) (d : Diagnostic) :
    frames.foldl reportFrame d = { d with notes := d.notes ++ frameNotes frames } := by
  induction frames generalizing d with
  | nil => simp [frameNotes]
  | cons f rest ih =>
    cases hf : f.subroutine with
    | none => simp [reportFrame, hf, ih, frameNotes]
    | some s => simp [reportFrame, hf, ih, frameNotes, Option.map]

theorem frameNotes_eq_map (frames : List Frame)
    (h : ∀ f ∈ frames, f.subroutine.isSome) :
    frameNotes frames = frames.map Note.inCallTo := by
  induction frames with
  | nil => rfl
  | cons f rest ih =>
    have hf := h f (List.mem_cons_self f rest)
    obtain ⟨s, hs⟩ := Option.isSome_iff_exists.mp hf
    simp only [frameNotes, List.filterMap_cons, hs, Option.map]
    exact congrArg _ (ih fun g hg => h g (List.mem_cons_of_mem f hg))

/-! ## Claim theorems -/

/-- C2: when the frame stack already holds at least `maxConstexprDepth` frames,
`pushFrame` records a `ConstEvalExceededMaxCallDepth` diagnostic and returns
failure with the stack unchanged; below the limit it pushes exactly one frame
and returns success (with no diagnostic). -/
theorem pushFrame_spec (ctx : EvalContext) (sub : SubroutineSymbol)
    (callLoc lookupLoc : SourceLocation) :
    (pushFrame ctx sub callLoc lookupLoc).1
        = decide (ctx.stack.length < ctx.options.maxConstexprDepth) ∧
    (pushFrame ctx sub callLoc lookupLoc).2.stack
        = (if ctx.stack.length < ctx.options.maxConstexprDepth
           then ctx.stack ++ [⟨some sub.name, callLoc, lookupLoc⟩] else ctx.stack) ∧
    (pushFrame ctx sub callLoc lookupLoc).2.diags
        = ctx.diags ++
          (if ctx.stack.length < ctx.options.maxConstexprDepth then []
           else [reportStack ctx.options.maxConstexprBacktrace ctx.stack
                   ⟨.constEvalExceededMaxCallDepth, sub.location, []⟩]) := by
  rcases Nat.lt_or_ge ctx.stack.length ctx.options.maxConstexprDepth with h | h
  · simp [pushFrame, addDiag, Nat.not_le.mpr h, h]
  · simp [pushFrame, addDiag, Nat.not_lt.mpr h, h]

/-- C3: `step` increments the step counter by one; it succeeds exactly when
the incremented counter is still below `maxConstexprSteps`, and otherwise
records a `ConstEvalExceededMaxSteps` diagnostic and fails (the frame stack is
untouched either way). -/
theorem step_spec (ctx : EvalContext) (loc : SourceLocation) :
    (step ctx loc).2.steps = ctx.steps + 1 ∧
    (step ctx loc).1 = decide (ctx.steps + 1 < ctx.options.maxConstexprSteps) ∧
    (step ctx loc).2.diags
      = ctx.diags ++
        (if ctx.steps + 1 < ctx.options.maxConstexprSteps then []
         else [reportStack ctx.options.maxConstexprBacktrace ctx.stack
                 ⟨.constEvalExceededMaxSteps, loc, []⟩]) ∧
    (step ctx loc).2.stack = ctx.stack := by
  by_cases h : ctx.steps + 1 < ctx.options.maxConstexprSteps <;>
    simp [step, addDiag, h]

theorem addDiagsLoop_false_diags (ctx : EvalContext) (rest : List Diagnostic) :
    (addDiagsLoop ctx false rest).diags = ctx.diags ++ rest := by
  induction rest generalizing ctx with
  | nil => simp [addDiagsLoop]
  | cons d rest ih => simp [addDiagsLoop, ih]

/-- C9: merging a nonempty batch of diagnostics via `addDiags` attaches the
session's current frame-stack backtrace to the first diagnostic only; every
subsequent diagnostic is appended unchanged. -/
theorem addDiags_spec (ctx : EvalContext) (d : Diagnostic) (rest : List Diagnostic) :
    (addDiags ctx (d :: rest)).diags
      = ctx.diags ++
        [reportStack ctx.options.maxConstexprBacktrace ctx.stack d] ++ rest := by
  simp [addDiags, addDiagsLoop, addDiagsLoop_false_diags]

theorem reportStack_notes (limit : Nat) (stack : List Frame) (d : Diagnostic) :
    reportStack limit stack d =
      { d with notes := d.notes ++
          (if stack.length ≤ limit ∨ limit = 0 then frameNotes stack.reverse
           else
             frameNotes (stack.reverse.take (limit / 2))
               ++ [Note.skippingFrames (stack.length - limit)
                     ((stack.reverse.getD (limit / 2) ⟨none, 0, 0⟩).callLocation)]
               ++ frameNotes (stack.reverse.drop
                     (stack.reverse.length - (limit / 2 + limit % 2)))) } := by
  by_cases h : stack.length ≤ limit ∨ limit = 0
  · rw [reportStack, if_pos h, foldl_reportFrame, if_pos h]
  · rw [reportStack, if_neg h, if_neg h]
    simp only [foldl_reportFrame]
    simp [List.append_assoc]

/-- C4: a diagnostic recorded while the stack depth D exceeds a nonzero
backtrace limit L carries, in display (most-recent-first) order, exactly the
first `L / 2` frames, one `NoteSkippingFrames` note counting the `D - L`
elided frames, and the last `(L + 1) / 2` frames; when `D ≤ L` it carries all
D frames and no elision note. -/
theorem addDiag_backtrace_elision (ctx : EvalContext) (code : DiagCode)
    (loc : SourceLocation)
    (hL : ctx.options.maxConstexprBacktrace ≠ 0)
    (hall : ∀ f ∈ ctx.stack, f.subroutine.isSome) :
    (addDiag ctx code loc).diags
      = ctx.diags ++
        [⟨code, loc,
          if ctx.options.maxConstexprBacktrace < ctx.stack.length then
            (ctx.stack.reverse.take (ctx.options.maxConstexprBacktrace / 2)).map
                Note.inCallTo
              ++ [Note.skippingFrames
                    (ctx.stack.length - ctx.options.maxConstexprBacktrace)
                    ((ctx.stack.reverse.getD (ctx.options.maxConstexprBacktrace / 2)
                        ⟨none, 0, 0⟩).callLocation)]
              ++ (ctx.stack.reverse.drop
                    (ctx.stack.length - (ctx.options.maxConstexprBacktrace + 1) / 2)).map
                  Note.inCallTo
          else ctx.stack.reverse.map Note.inCallTo⟩] := by
  have hrev : ∀ f ∈ ctx.stack.reverse, f.subroutine.isSome := fun f hf =>
    hall f (List.mem_reverse.mp hf)
  rw [addDiag, reportStack_notes]
  by_cases h : ctx.options.maxConstexprBacktrace < ctx.stack.length
  · have hcond : ¬(ctx.stack.length ≤ ctx.options.maxConstexprBacktrace ∨
        ctx.options.maxConstexprBacktrace = 0) := by
      push_neg
      exact ⟨h, hL⟩
    have h2 : (ctx.options.maxConstexprBacktrace + 1) / 2
        = ctx.options.maxConstexprBacktrace / 2 + ctx.options.maxConstexprBacktrace % 2 := by
      omega
    rw [if_pos h, if_neg hcond,
      frameNotes_eq_map _ (fun f hf => hrev f (List.take_subset _ _ hf)),
      frameNotes_eq_map _ (fun f hf => hrev f (List.drop_subset _ _ hf))]
    simp [h2]
  · have hcond : ctx.stack.length ≤ ctx.options.maxConstexprBacktrace ∨
        ctx.options.maxConstexprBacktrace = 0 := Or.inl (Nat.not_lt.mp h)
    rw [if_neg h, if_pos hcond, frameNotes_eq_map _ hrev]
    rfl

/-- C4 witness: limit 3, depth 5 — the backtrace keeps the most recent frame
and the two oldest frames around a note eliding 2 frames. -/
theorem addDiag_backtrace_elision_witness :
    (addDiag
        ⟨⟨10, 100, 3⟩, 0,
          [⟨some 1, 10, 0⟩, ⟨some 2, 20, 0⟩, ⟨some 3, 30, 0⟩, ⟨some 4, 40, 0⟩,
           ⟨some 5, 50, 0⟩], []⟩
        .constEvalEmptyQueue 7).diags
      = [⟨.constEvalEmptyQueue, 7,
          [Note.inCallTo ⟨some 5, 50, 0⟩,
           Note.skippingFrames 2 40,
           Note.inCallTo ⟨some 2, 20, 0⟩,
           Note.inCallTo ⟨some 1, 10, 0⟩]⟩] := by
  rw [addDiag_backtrace_elision
    ⟨⟨10, 100, 3⟩, 0,
      [⟨some 1, 10, 0⟩, ⟨some 2, 20, 0⟩, ⟨some 3, 30, 0⟩, ⟨some 4, 40, 0⟩,
       ⟨some 5, 50, 0⟩], []⟩
    .constEvalEmptyQueue 7 (by decide) (by decide)]
  decide

/-- C10: with a configured backtrace limit of 0, a recorded diagnostic carries
the full backtrace — one note per frame, most recent first — and no
`NoteSkippingFrames` elision note, whatever the stack depth. -/
theorem addDiag_limit_zero (ctx : EvalContext) (code : DiagCode) (loc : SourceLocation)
    (h0 : ctx.options.maxConstexprBacktrace = 0)
    (hall : ∀ f ∈ ctx.stack, f.subroutine.isSome) :
    (addDiag ctx code loc).diags
      = ctx.diags ++ [⟨code, loc, ctx.stack.reverse.map Note.inCallTo⟩] ∧
    ∀ n l, Note.skippingFrames n l ∉ ctx.stack.reverse.map Note.inCallTo := by
  constructor
  · rw [addDiag, reportStack_notes, h0]
    rw [if_pos (Or.inr rfl),
      frameNotes_eq_map _ (fun f hf => hall f (List.mem_reverse.mp hf))]
    rfl
  · intro n l hmem
    obtain ⟨f, -, hf⟩ := List.mem_map.mp hmem
    exact Note.noConfusion hf

/-- C10 witness: limit 0, depth 3 — the full three-frame backtrace is kept. -/
theorem addDiag_limit_zero_witness :
    (addDiag
        ⟨⟨10, 100, 0⟩, 0, [⟨some 1, 10, 0⟩, ⟨some 2, 20, 0⟩, ⟨some 3, 30, 0⟩], []⟩
        .constEvalEmptyQueue 7).diags
      = [⟨.constEvalEmptyQueue, 7,
          [Note.inCallTo ⟨some 3, 30, 0⟩, Note.inCallTo ⟨some 2, 20, 0⟩,
           Note.inCallTo ⟨some 1, 10, 0⟩]⟩] := by
  rw [(addDiag_limit_zero
    ⟨⟨10, 100, 0⟩, 0, [⟨some 1, 10, 0⟩, ⟨some 2, 20, 0⟩, ⟨some 3, 30, 0⟩], []⟩
    .constEvalEmptyQueue 7 rfl (by decide)).1]
  decide

/-- C1 counterexample: the code returns the value 0 for every reduction of an
empty container, so the `and` reduction over an empty container of 4-bit
unsigned elements is 0, not the all-ones value 15, and the `product`
reduction is 0, not 1. -/
theorem arrayReduction_empty_cex :
    arrayReductionEval .and 4 false [] = ⟨4, false, 0⟩ ∧
    (arrayReductionEval .and 4 false []).val ≠ 2 ^ 4 - 1 ∧
    arrayReductionEval .product 4 false [] = ⟨4, false, 0⟩ ∧
    (arrayReductionEval .product 4 false []).val ≠ 1 := by
  decide

/-- C1 (amended): evaluating any of the five reduction methods on an empty
container returns the value 0 at the element's declared bit width and
signedness, for every operator — including `and` and `product`. -/
theorem arrayReduction_empty (op : ReduceOp) (w : Nat) (s : Bool) :
    arrayReductionEval op w s [] = ⟨w, s, 0⟩ := rfl

/-- C1 amended-claim witness at a concrete operator, width and signedness. -/
theorem arrayReduction_empty_witness :
    arrayReductionEval .sum 8 true [] = ⟨8, true, 0⟩ :=
  arrayReduction_empty .sum 8 true

/-- C5: inserting at an index in `[0, size]` places the value at that index,
shifting later elements up; any other index (negative, beyond the size, or not
representable in 32 bits) records a `ConstEvalDynamicArrayIndex` diagnostic
and leaves the queue unmodified.  The size bound keeps in-range indices
representable in `int32`, as every compile-time queue is. -/
theorem queueInsert_spec {α : Type} (q : SVQueue α) (i : Int) (v : α)
    (hsize : q.elems.length < 2 ^ 31) :
    queueInsertEval q i v =
      if 0 ≤ i ∧ i ≤ (q.elems.length : Int) then
        ({ q with elems := q.elems.take i.toNat ++ v :: q.elems.drop i.toNat }, [])
      else (q, [DiagCode.constEvalDynamicArrayIndex]) := by
  by_cases h : 0 ≤ i ∧ i ≤ (q.elems.length : Int)
  · have h32 : -(2 ^ 31) ≤ i ∧ i ≤ 2 ^ 31 - 1 := by omega
    have hidx : ¬(i < 0 ∨ (q.elems.length : Int) + 1 ≤ i) := by omega
    have hsome : asInt32 i = some i := by unfold asInt32; rw [if_pos h32]
    unfold queueInsertEval
    simp only [hsome]
    rw [if_neg hidx, if_pos h]
  · by_cases h32 : -(2 ^ 31) ≤ i ∧ i ≤ 2 ^ 31 - 1
    · have hidx : i < 0 ∨ (q.elems.length : Int) + 1 ≤ i := by omega
      have hsome : asInt32 i = some i := by unfold asInt32; rw [if_pos h32]
      unfold queueInsertEval
      simp only [hsome]
      rw [if_pos hidx, if_neg h]
    · have hnone : asInt32 i = none := by unfold asInt32; rw [if_neg h32]
      unfold queueInsertEval
      simp only [hnone]
      rw [if_neg h]

/-- C5 witness: the spec's scenario — `{1,2,3}.insert(1, 9)` yields
`{1,9,2,3}`, and `insert(10, 9)` on the result records a diagnostic and
leaves it unchanged. -/
theorem queueInsert_spec_witness :
    queueInsertEval (⟨[1, 2, 3], none⟩ : SVQueue Int) 1 9
        = (⟨[1, 9, 2, 3], none⟩, []) ∧
    queueInsertEval (⟨[1, 9, 2, 3], none⟩ : SVQueue Int) 10 9
        = (⟨[1, 9, 2, 3], none⟩, [DiagCode.constEvalDynamicArrayIndex]) := by
  constructor
  · rw [queueInsert_spec (⟨[1, 2, 3], none⟩ : SVQueue Int) 1 9 (by norm_num)]
    decide
  · rw [queueInsert_spec (⟨[1, 9, 2, 3], none⟩ : SVQueue Int) 10 9 (by norm_num)]
    decide

/-- C6: popping an empty queue records a `ConstEvalEmptyQueue` diagnostic and
returns the element default, leaving the queue empty; on a nonempty queue the
front (resp. back) element is removed and returned with no diagnostic. -/
theorem queuePop_spec {α : Type} (front : Bool) (q : SVQueue α) (d : α) :
    queuePopEval front q d =
      match q.elems with
      | [] => (d, q, [DiagCode.constEvalEmptyQueue])
      | x :: xs =>
        if front then (x, { q with elems := xs }, [])
        else ((x :: xs).getLastD d, { q with elems := (x :: xs).dropLast }, []) := by
  rcases q with ⟨elems, mb⟩
  cases elems with
  | nil => simp [queuePopEval]
  | cons x xs => cases front <;> simp [queuePopEval]

/-- C6 witness at concrete queues: pop on an empty queue and on `{4, 5}`. -/
theorem queuePop_spec_witness :
    queuePopEval true (⟨[], some 2⟩ : SVQueue Nat) 0
        = (0, ⟨[], some 2⟩, [DiagCode.constEvalEmptyQueue]) ∧
    queuePopEval false (⟨[4, 5], none⟩ : SVQueue Nat) 0
        = (5, ⟨[4], none⟩, []) := by
  constructor
  · rw [queuePop_spec true (⟨[], some 2⟩ : SVQueue Nat) 0]
  · rw [queuePop_spec false (⟨[4, 5], none⟩ : SVQueue Nat) 0]
    decide

/-- C7 counterexample: on a queue already at its cap, `push_back` evicts the
front element, so `push_back(7)` then `pop_back()` on the capped queue `{5}`
(cap 1) still returns 7 but leaves the queue empty instead of `{5}`. -/
theorem queue_push_pop_back_cex :
    (queuePopEval false (queuePushEval false (⟨[5], some 1⟩ : SVQueue Nat) 7) 0).1 = 7 ∧
    (queuePopEval false (queuePushEval false (⟨[5], some 1⟩ : SVQueue Nat) 7) 0).2.1
      ≠ (⟨[5], some 1⟩ : SVQueue Nat) := by
  decide

/-- C7 (amended): on a queue that is uncapped or strictly below its cap,
`push_back(x)` followed by `pop_back()` returns exactly `x`, emits no
diagnostic, and leaves the queue equal to its state before the push; a queue
already at its cap instead evicts its front element on the push, so its prior
state is not restored. -/
theorem queue_push_pop_back {α : Type} (q : SVQueue α) (x d : α)
    (h : ∀ cap, q.maxBound = some cap → q.elems.length < cap) :
    queuePopEval false (queuePushEval false q x) d = (x, q, []) := by
  rcases q with ⟨elems, mb⟩
  have pushed : queuePushEval false (⟨elems, mb⟩ : SVQueue α) x
      = ⟨elems ++ [x], mb⟩ := by
    cases mb with
    | none => simp [queuePushEval, SVQueue.pushBack]
    | some cap =>
      have hc : elems.length < cap := h cap rfl
      have hlt : ¬cap < elems.length + 1 := by omega
      simp [queuePushEval, SVQueue.pushBack, hlt]
  rw [pushed]
  simp [queuePopEval]

/-- C7 amended-claim witness: `push_back(3)` then `pop_back()` on the
uncapped queue `{1, 2}`. -/
theorem queue_push_pop_back_witness :
    queuePopEval false (queuePushEval false (⟨[1, 2], none⟩ : SVQueue Nat) 3) 0
      = (3, ⟨[1, 2], none⟩, []) :=
  queue_push_pop_back (⟨[1, 2], none⟩ : SVQueue Nat) 3 0 (by intro cap hc; cases hc)

/-- C8: on any queue over a totally ordered element type, `rsort` produces the
exact reverse of the sequence `sort` produces from the same contents (and
neither touches the queue's cap). -/
theorem sort_rsort_reverse {α : Type} [LinearOrder α] (q : SVQueue α) :
    (arraySortEval true q).elems = ((arraySortEval false q).elems).reverse ∧
    (arraySortEval true q).maxBound = q.maxBound ∧
    (arraySortEval false q).maxBound = q.maxBound := by
  refine ⟨?_, rfl, rfl⟩
  simp only [arraySortEval, if_true, if_false, reduceIte]
  congr 1
  refine List.eq_of_perm_of_sorted ?_ (List.sorted_insertionSort _ _)
    (List.sorted_insertionSort _ _)
  exact (List.perm_insertionSort _ _).trans
    ((q.elems.reverse_perm).trans (List.perm_insertionSort _ _).symm)

/-- C8 witness at a concrete queue of integers. -/
theorem sort_rsort_reverse_witness :
    (arraySortEval true (⟨[2, 1, 3], none⟩ : SVQueue Int)).elems
      = ((arraySortEval false (⟨[2, 1, 3], none⟩ : SVQueue Int)).elems).reverse :=
  (sort_rsort_reverse (⟨[2, 1, 3], none⟩ : SVQueue Int)).1

end Slang
